import Mathlib

/-!
# Verification of the Black-Scholes-Merton pricing and implied-volatility core

Shallow embedding of `src/black_scholes_merton.py` (functions `option_price` and
`implied_volatility`) over the real numbers, together with proofs of the
specification's claims about them.

`scipy.stats.norm.cdf` is modelled by the standard normal cumulative
distribution function `normCdf` defined as the Lebesgue integral of the
standard normal density, and `scipy.optimize.brentq` — an external library
routine whose source is not part of this repository — is modelled from its
documented contract (see `brentq` below).
-/

open MeasureTheory Set Filter Topology

namespace BSM

/-- The standard normal probability density function,
`exp (-x^2/2) / sqrt (2*pi)`. -/
noncomputable def stdNormalPDF (x : ℝ) : ℝ :=
  Real.exp (-(x ^ 2) / 2) / Real.sqrt (2 * Real.pi)

/-- The standard normal cumulative distribution function; this models
`scipy.stats.norm.cdf`. -/
noncomputable def normCdf (x : ℝ) : ℝ :=
  ∫ t in Iic x, stdNormalPDF t

/-- Shallow embedding of `option_price` from `src/black_scholes_merton.py`.
The Python function raises `ValueError` for an `option_type` other than
`"c"` or `"p"`; this is modelled by the `Except.error` branch. -/
noncomputable def option_price (S K T r sigma q : ℝ) (option_type : String) :
    Except String ℝ :=
  let d1 := (Real.log (S / K) + (r - q + 0.5 * sigma ^ 2) * T) /
    (sigma * Real.sqrt T)
  let d2 := d1 - sigma * Real.sqrt T
  if option_type = "c" then
    Except.ok (S * Real.exp (-q * T) * normCdf d1 -
      K * Real.exp (-r * T) * normCdf d2)
  else if option_type = "p" then
    Except.ok (K * Real.exp (-r * T) * normCdf (-d2) -
      S * Real.exp (-q * T) * normCdf (-d1))
  else
    Except.error "Invalid option type. Must be c or p."

open Classical in
/-- Modelled from the spec: `scipy.optimize.brentq` is an external library
routine whose source is not part of this repository.  Per the spec it is a
derivative-free bracketing root-finder that (i) first evaluates the target at
the two bracket endpoints, letting any exception raised by the target itself
propagate, (ii) raises `ValueError` when the endpoint values do not have
different signs, (iii) given a sign change is guaranteed to converge to a root
inside the bracket, and (iv) raises `RuntimeError` when it fails to converge
within `maxiter` iterations.  Convergence is idealised as returning an exact
root (exact arithmetic makes the `xtol`/`maxiter` stopping rule vacuous). -/
noncomputable def brentq (f : ℝ → Except String ℝ) (a b _xtol : ℝ)
    (_maxiter : ℕ) : Except String ℝ :=
  match f a, f b with
  | Except.ok fa, Except.ok fb =>
    if 0 < fa * fb then
      Except.error "ValueError: f(a) and f(b) must have different signs"
    else if h : ∃ x ∈ Icc a b, f x = Except.ok 0 then
      Except.ok h.choose
    else
      Except.error "RuntimeError: failed to converge"
  | Except.error e, _ => Except.error e
  | Except.ok _, Except.error e => Except.error e

/-- Shallow embedding of `implied_volatility` from
`src/black_scholes_merton.py`.  The Python returns the float `np.nan` on the
degenerate-input guard and in the `except (ValueError, RuntimeError)` handler;
both are modelled by `none` (see `implied_volatility_py` for the faithful
float-valued result representation). -/
noncomputable def implied_volatility (S K T r q market_price : ℝ)
    (option_type : String) (tol : ℝ) (max_iter : ℕ) : Option ℝ :=
  if T ≤ 0 ∨ market_price ≤ 0 then none
  else
    match brentq
        (fun sigma => (option_price S K T r sigma q option_type).map
          (fun p => p - market_price))
        1e-6 200 tol max_iter with
    | Except.ok x => some x
    | Except.error _ => none

/-- A Python float result as `implied_volatility` actually produces it: either
an ordinary numeric value or the IEEE-754 NaN that `np.nan` denotes. -/
inductive PyFloat where
  | val : ℝ → PyFloat
  | nan : PyFloat

/-- Multiplication of Python floats: NaN silently propagates through
arithmetic, exactly as in the `* 100` applied to each implied volatility in
`src/app.py`. -/
def PyFloat.mul : PyFloat → PyFloat → PyFloat
  | PyFloat.val x, PyFloat.val y => PyFloat.val (x * y)
  | _, _ => PyFloat.nan

/-- The result of `implied_volatility` in the Python value representation: the
degenerate and failure cases return the numeric float `np.nan`, not a
non-numeric marker. -/
noncomputable def implied_volatility_py (S K T r q market_price : ℝ)
    (option_type : String) (tol : ℝ) (max_iter : ℕ) : PyFloat :=
  match implied_volatility S K T r q market_price option_type tol max_iter with
  | some x => PyFloat.val x
  | none => PyFloat.nan

/-- The quantity `d1` as the spec writes it. -/
noncomputable def d1_spec (S K T r sigma q : ℝ) : ℝ :=
  (Real.log (S / K) + (r - q + 0.5 * sigma ^ 2) * T) / (sigma * Real.sqrt T)

/-- The quantity `d2` as the spec writes it. -/
noncomputable def d2_spec (S K T r sigma q : ℝ) : ℝ :=
  d1_spec S K T r sigma q - sigma * Real.sqrt T

/-- The call price as the spec writes it:
`spot*e^(-qT)*Phi(d1) - strike*e^(-rT)*Phi(d2)`. -/
noncomputable def callPriceSpec (S K T r sigma q : ℝ) : ℝ :=
  S * Real.exp (-q * T) * normCdf (d1_spec S K T r sigma q) -
    K * Real.exp (-r * T) * normCdf (d2_spec S K T r sigma q)

/-- The put price as the spec writes it:
`strike*e^(-rT)*Phi(-d2) - spot*e^(-qT)*Phi(-d1)`. -/
noncomputable def putPriceSpec (S K T r sigma q : ℝ) : ℝ :=
  K * Real.exp (-r * T) * normCdf (-d2_spec S K T r sigma q) -
    S * Real.exp (-q * T) * normCdf (-d1_spec S K T r sigma q)

lemma stdNormalPDF_pos (x : ℝ) : 0 < stdNormalPDF x := by
  unfold stdNormalPDF
  positivity

lemma stdNormalPDF_neg (x : ℝ) : stdNormalPDF (-x) = stdNormalPDF x := by
  simp [stdNormalPDF, neg_sq]

lemma continuous_stdNormalPDF : Continuous stdNormalPDF := by
  unfold stdNormalPDF
  fun_prop

lemma stdNormalPDF_eq (x : ℝ) :
    stdNormalPDF x = Real.exp (-(1 / 2) * x ^ 2) / Real.sqrt (2 * Real.pi) := by
  unfold stdNormalPDF
  ring_nf

lemma integrable_stdNormalPDF : Integrable stdNormalPDF := by
  have h : Integrable (fun x : ℝ =>
      Real.exp (-(1 / 2) * x ^ 2) / Real.sqrt (2 * Real.pi)) :=
    (integrable_exp_neg_mul_sq (by norm_num)).div_const _
  exact h.congr (Eventually.of_forall fun x => (stdNormalPDF_eq x).symm)

lemma integral_stdNormalPDF : ∫ x, stdNormalPDF x = 1 := by
  have h2pi : (0 : ℝ) < 2 * Real.pi := by positivity
  calc ∫ x, stdNormalPDF x
      = ∫ x, Real.exp (-(1 / 2) * x ^ 2) / Real.sqrt (2 * Real.pi) :=
        integral_congr_ae (Eventually.of_forall fun x => stdNormalPDF_eq x)
    _ = (∫ x, Real.exp (-(1 / 2) * x ^ 2)) / Real.sqrt (2 * Real.pi) :=
        integral_div _ _
    _ = Real.sqrt (Real.pi / (1 / 2)) / Real.sqrt (2 * Real.pi) := by
        rw [integral_gaussian]
    _ = 1 := by
        have hpi : Real.pi / (1 / 2) = 2 * Real.pi := by ring
        rw [hpi, div_self (Real.sqrt_pos.mpr h2pi).ne']

lemma normCdf_nonneg (x : ℝ) : 0 ≤ normCdf x :=
  setIntegral_nonneg measurableSet_Iic fun t _ => (stdNormalPDF_pos t).le

lemma normCdf_le_one (x : ℝ) : normCdf x ≤ 1 := by
  rw [← integral_stdNormalPDF]
  exact setIntegral_le_integral integrable_stdNormalPDF
    (Eventually.of_forall fun t => (stdNormalPDF_pos t).le)

lemma normCdf_add_Ioi (x : ℝ) :
    normCdf x + ∫ t in Ioi x, stdNormalPDF t = 1 := by
  rw [normCdf, intervalIntegral.integral_Iic_add_Ioi integrable_stdNormalPDF.integrableOn
    integrable_stdNormalPDF.integrableOn, integral_stdNormalPDF]

lemma normCdf_neg (x : ℝ) : normCdf (-x) = 1 - normCdf x := by
  have h1 : normCdf (-x) = ∫ t in Ioi x, stdNormalPDF t := by
    rw [normCdf]
    have h2 : ∫ t in Iic (-x), stdNormalPDF t
        = ∫ t in Iic (-x), stdNormalPDF (-t) := by
      simp only [stdNormalPDF_neg]
    rw [h2, integral_comp_neg_Iic, neg_neg]
  have := normCdf_add_Ioi x
  linarith

lemma normCdf_sub (a b : ℝ) :
    normCdf b - normCdf a = ∫ t in a..b, stdNormalPDF t := by
  rw [normCdf, normCdf, intervalIntegral.integral_Iic_sub_Iic integrable_stdNormalPDF.integrableOn
    integrable_stdNormalPDF.integrableOn]

lemma normCdf_strictMono : StrictMono normCdf := by
  intro a b hab
  have hpos : 0 < ∫ t in a..b, stdNormalPDF t :=
    intervalIntegral.intervalIntegral_pos_of_pos
      integrable_stdNormalPDF.intervalIntegrable stdNormalPDF_pos hab
  have := normCdf_sub a b
  linarith

lemma normCdf_pos (x : ℝ) : 0 < normCdf x :=
  lt_of_le_of_lt (normCdf_nonneg (x - 1)) (normCdf_strictMono (by linarith))

lemma normCdf_lt_one (x : ℝ) : normCdf x < 1 :=
  lt_of_lt_of_le (normCdf_strictMono (show x < x + 1 by linarith))
    (normCdf_le_one (x + 1))

lemma normCdf_hasDerivAt (x : ℝ) :
    HasDerivAt normCdf (stdNormalPDF x) x := by
  have key : normCdf = fun y => normCdf 0 + ∫ t in (0 : ℝ)..y, stdNormalPDF t := by
    funext y
    have := normCdf_sub 0 y
    linarith
  have hd : HasDerivAt (fun y => ∫ t in (0 : ℝ)..y, stdNormalPDF t)
      (stdNormalPDF x) x := by
    refine intervalIntegral.integral_hasDerivAt_right
      integrable_stdNormalPDF.intervalIntegrable ?_
      continuous_stdNormalPDF.continuousAt
    exact continuous_stdNormalPDF.stronglyMeasurable.stronglyMeasurableAtFilter
  rw [key]
  exact hd.const_add _

lemma continuous_normCdf : Continuous normCdf :=
  continuous_iff_continuousAt.mpr fun x => (normCdf_hasDerivAt x).continuousAt

lemma tendsto_normCdf_atBot : Tendsto normCdf atBot (𝓝 0) := by
  have hrepr : normCdf = fun x => ∫ t, indicator (Iic x) stdNormalPDF t := by
    funext x
    rw [normCdf, integral_indicator measurableSet_Iic]
  rw [hrepr]
  have h0 : (0 : ℝ) = ∫ (_t : ℝ), (0 : ℝ) := by simp
  rw [h0]
  refine tendsto_integral_filter_of_dominated_convergence stdNormalPDF
    (Eventually.of_forall fun x =>
      (continuous_stdNormalPDF.stronglyMeasurable.indicator
        measurableSet_Iic).aestronglyMeasurable)
    (Eventually.of_forall fun x => Eventually.of_forall fun t => ?_)
    integrable_stdNormalPDF
    (Eventually.of_forall fun t => ?_)
  · by_cases ht : t ∈ Iic x <;>
      simp [indicator, ht, abs_of_nonneg (stdNormalPDF_pos t).le,
        (stdNormalPDF_pos t).le]
  · have hev : (fun x : ℝ => indicator (Iic x) stdNormalPDF t)
        =ᶠ[atBot] (fun _ => (0 : ℝ)) := by
      filter_upwards [eventually_lt_atBot t] with x hx
      simp [indicator, not_le.mpr hx]
    exact Tendsto.congr' hev.symm tendsto_const_nhds

lemma option_price_call (S K T r sigma q : ℝ) :
    option_price S K T r sigma q "c"
      = Except.ok (callPriceSpec S K T r sigma q) := by
  simp [option_price, callPriceSpec, d1_spec, d2_spec]

lemma option_price_put (S K T r sigma q : ℝ) :
    option_price S K T r sigma q "p"
      = Except.ok (putPriceSpec S K T r sigma q) := by
  simp [option_price, putPriceSpec, d1_spec, d2_spec]

lemma option_price_invalid (S K T r sigma q : ℝ) (ot : String)
    (hc : ot ≠ "c") (hp : ot ≠ "p") :
    option_price S K T r sigma q ot
      = Except.error "Invalid option type. Must be c or p." := by
  simp [option_price, hc, hp]

lemma brentq_ok (f : ℝ → Except String ℝ) (a b xtol : ℝ) (mi : ℕ) (x : ℝ)
    (hx : brentq f a b xtol mi = Except.ok x) :
    x ∈ Icc a b ∧ f x = Except.ok 0 := by
  unfold brentq at hx
  split at hx
  case _ fa fb hfa hfb =>
    split at hx
    · exact absurd hx (by simp)
    · split at hx
      case _ h =>
        obtain ⟨hmem, hroot⟩ := h.choose_spec
        injection hx with hx
        rw [← hx]
        exact ⟨hmem, hroot⟩
      case _ => exact absurd hx (by simp)
  case _ => exact absurd hx (by simp)
  case _ => exact absurd hx (by simp)

lemma brentq_no_sign_change (f : ℝ → Except String ℝ) (a b xtol : ℝ) (mi : ℕ)
    (fa fb : ℝ) (hfa : f a = Except.ok fa) (hfb : f b = Except.ok fb)
    (hsign : 0 < fa * fb) :
    brentq f a b xtol mi
      = Except.error "ValueError: f(a) and f(b) must have different signs" := by
  unfold brentq
  rw [hfa, hfb]
  simp [hsign]

lemma brentq_no_root (f : ℝ → Except String ℝ) (a b xtol : ℝ) (mi : ℕ)
    (fa fb : ℝ) (hfa : f a = Except.ok fa) (hfb : f b = Except.ok fb)
    (hroot : ¬ ∃ x ∈ Icc a b, f x = Except.ok 0) :
    brentq f a b xtol mi
      = Except.error "RuntimeError: failed to converge"
      ∨ brentq f a b xtol mi
      = Except.error "ValueError: f(a) and f(b) must have different signs" := by
  unfold brentq
  rw [hfa, hfb]
  by_cases hsign : 0 < fa * fb
  · right
    simp [hsign]
  · left
    simp [hsign]
    intro x h1 h2 hfx
    exact hroot ⟨x, ⟨h1, h2⟩, hfx⟩

lemma brentq_error_left (f : ℝ → Except String ℝ) (a b xtol : ℝ) (mi : ℕ)
    (e : String) (hfa : f a = Except.error e) :
    brentq f a b xtol mi = Except.error e := by
  unfold brentq
  rw [hfa]

/-- The target function handed to `brentq` by `implied_volatility`. -/
noncomputable def target_fn (S K T r q market_price : ℝ) (option_type : String)
    (sigma : ℝ) : Except String ℝ :=
  (option_price S K T r sigma q option_type).map (fun p => p - market_price)

lemma implied_volatility_eq (S K T r q mp : ℝ) (ot : String) (tol : ℝ)
    (mi : ℕ) (hT : 0 < T) (hmp : 0 < mp) :
    implied_volatility S K T r q mp ot tol mi
      = match brentq (target_fn S K T r q mp ot) 1e-6 200 tol mi with
        | Except.ok x => some x
        | Except.error _ => none := by
  have hguard : ¬ (T ≤ 0 ∨ mp ≤ 0) := by
    push_neg
    exact ⟨hT, hmp⟩
  rw [implied_volatility, if_neg hguard]
  rfl

/-- C1: for every input with `spot > 0`, `strike > 0`, `time_to_expiration > 0`
and `volatility > 0`, `option_price` returns exactly the Black-Scholes-Merton
value: with `d1 = (ln(S/K) + (r - q + 0.5*sigma^2)*T) / (sigma*sqrt T)` and
`d2 = d1 - sigma*sqrt T`, it returns `S*e^(-qT)*Phi(d1) - K*e^(-rT)*Phi(d2)`
for a call and `K*e^(-rT)*Phi(-d2) - S*e^(-qT)*Phi(-d1)` for a put, where
`Phi` is the standard normal CDF. -/
theorem C1_option_price_is_bsm_formula (S K T r sigma q : ℝ)
    (_hS : 0 < S) (_hK : 0 < K) (_hT : 0 < T) (_hsigma : 0 < sigma) :
    option_price S K T r sigma q "c"
        = Except.ok (callPriceSpec S K T r sigma q) ∧
      option_price S K T r sigma q "p"
        = Except.ok (putPriceSpec S K T r sigma q) :=
  ⟨option_price_call S K T r sigma q, option_price_put S K T r sigma q⟩

theorem C1_witness :
    option_price 100 100 1 (1 / 20) (1 / 5) 0 "c"
        = Except.ok (callPriceSpec 100 100 1 (1 / 20) (1 / 5) 0) ∧
      option_price 100 100 1 (1 / 20) (1 / 5) 0 "p"
        = Except.ok (putPriceSpec 100 100 1 (1 / 20) (1 / 5) 0) :=
  C1_option_price_is_bsm_formula 100 100 1 (1 / 20) (1 / 5) 0
    (by norm_num) (by norm_num) (by norm_num) (by norm_num)

/-- C2: for every input where `time_to_expiration <= 0` or
`market_price <= 0`, `implied_volatility` returns the undefined result
immediately, without invoking the pricer or performing any root search; the
guard fires before the target function or `brentq` are ever consulted, for
every option type, tolerance and iteration budget. -/
theorem C2_implied_volatility_degenerate (S K T r q mp : ℝ) (ot : String)
    (tol : ℝ) (mi : ℕ) (h : T ≤ 0 ∨ mp ≤ 0) :
    implied_volatility S K T r q mp ot tol mi = none := by
  rw [implied_volatility, if_pos h]

theorem C2_witness :
    implied_volatility 100 100 0 (1 / 25) (1 / 100) 5 "c" 1e-6 100 = none ∧
      implied_volatility 100 100 (1 / 2) (1 / 25) (1 / 100) 0 "c" 1e-6 100
        = none ∧
      implied_volatility 100 100 (1 / 2) (1 / 25) (1 / 100) (-1) "c" 1e-6 100
        = none :=
  ⟨C2_implied_volatility_degenerate 100 100 0 (1 / 25) (1 / 100) 5 "c" 1e-6 100
      (Or.inl (by norm_num)),
    C2_implied_volatility_degenerate 100 100 (1 / 2) (1 / 25) (1 / 100) 0 "c"
      1e-6 100 (Or.inr (by norm_num)),
    C2_implied_volatility_degenerate 100 100 (1 / 2) (1 / 25) (1 / 100) (-1)
      "c" 1e-6 100 (Or.inr (by norm_num))⟩

/-- C5: for every input whose `option_type` is neither the call variant `"c"`
nor the put variant `"p"`, `option_price` fails synchronously with the
invalid-argument error (the `ValueError` of the Python) rather than returning
any number or sentinel value. -/
theorem C5_option_price_invalid_type_raises (S K T r sigma q : ℝ)
    (ot : String) (hc : ot ≠ "c") (hp : ot ≠ "p") :
    option_price S K T r sigma q ot
      = Except.error "Invalid option type. Must be c or p." :=
  option_price_invalid S K T r sigma q ot hc hp

theorem C5_witness :
    option_price 100 100 1 (1 / 20) (1 / 5) 0 "x"
      = Except.error "Invalid option type. Must be c or p." :=
  C5_option_price_invalid_type_raises 100 100 1 (1 / 20) (1 / 5) 0 "x"
    (by decide) (by decide)

/-- C10: for every input with `T > 0`, `market_price > 0` and an
`option_type` that is neither `"c"` nor `"p"`, `implied_volatility` does not
propagate the pricer's invalid-argument error: the `ValueError` raised inside
the target function (evaluated by `brentq` at the first bracket endpoint) is
caught by the solver's exception handler and the call returns the same
undefined result as a numerical failure. -/
theorem C10_invalid_type_silently_absorbed (S K T r q mp : ℝ) (ot : String)
    (tol : ℝ) (mi : ℕ) (hT : 0 < T) (hmp : 0 < mp)
    (hc : ot ≠ "c") (hp : ot ≠ "p") :
    implied_volatility S K T r q mp ot tol mi = none := by
  rw [implied_volatility_eq S K T r q mp ot tol mi hT hmp,
    brentq_error_left (target_fn S K T r q mp ot) 1e-6 200 tol mi
      "Invalid option type. Must be c or p." (by
        unfold target_fn
        rw [option_price_invalid S K T r (1e-6) q ot hc hp]
        rfl)]

theorem C10_witness :
    implied_volatility 100 100 1 (1 / 25) (1 / 100) 5 "x" 1e-6 100 = none :=
  C10_invalid_type_silently_absorbed 100 100 1 (1 / 25) (1 / 100) 5 "x"
    1e-6 100 (by norm_num) (by norm_num) (by decide) (by decide)

/-- C4 counterexample: the claim says the undefined result "is not a numeric
value — a sum-type-style absence, not a floating-point NaN sentinel that can
silently propagate through arithmetic".  The Python code returns `np.nan`: at
the concrete degenerate input below the result is the float NaN, and it
propagates silently through the multiplication by 100 that `src/app.py`
applies to every implied volatility. -/
theorem C4_counterexample :
    implied_volatility_py 100 100 0 (1 / 25) (1 / 100) 5 "c" 1e-6 100
        = PyFloat.nan ∧
      PyFloat.mul
        (implied_volatility_py 100 100 0 (1 / 25) (1 / 100) 5 "c" 1e-6 100)
        (PyFloat.val 100) = PyFloat.nan := by
  have h : implied_volatility 100 100 0 (1 / 25) (1 / 100) 5 "c" 1e-6 100
      = none := by
    rw [implied_volatility, if_pos (Or.inl le_rfl)]
  have h2 : implied_volatility_py 100 100 0 (1 / 25) (1 / 100) 5 "c" 1e-6 100
      = PyFloat.nan := by
    unfold implied_volatility_py
    rw [h]
  exact ⟨h2, by rw [h2]; rfl⟩

/-- C4 amended: for every input, the result of `implied_volatility` is either
a numeric volatility value (which is non-negative, as it lies in the search
bracket `[1e-6, 200]`) or the floating-point NaN sentinel `np.nan` — a
numeric value that silently propagates through arithmetic — not a non-numeric
sum-type-style absence marker. -/
theorem C4_amended_nan_or_nonneg_value (S K T r q mp : ℝ) (ot : String)
    (tol : ℝ) (mi : ℕ) :
    implied_volatility_py S K T r q mp ot tol mi = PyFloat.nan ∨
      ∃ x : ℝ, implied_volatility_py S K T r q mp ot tol mi = PyFloat.val x ∧
        0 ≤ x := by
  unfold implied_volatility_py
  cases hiv : implied_volatility S K T r q mp ot tol mi with
  | none => exact Or.inl rfl
  | some x =>
    refine Or.inr ⟨x, rfl, ?_⟩
    unfold implied_volatility at hiv
    split at hiv
    · exact absurd hiv (by simp)
    · revert hiv
      cases hb : brentq (fun sigma =>
          (option_price S K T r sigma q ot).map (fun p => p - mp))
          1e-6 200 tol mi with
      | ok y =>
        intro hiv
        have hmem := (brentq_ok _ _ _ _ _ _ hb).1
        have hy : y = x := by
          injection hiv
        calc (0 : ℝ) ≤ 1e-6 := by norm_num
          _ ≤ x := hy ▸ hmem.1
      | error e =>
        intro hiv
        exact absurd hiv (by simp)

/-- C6: put-call parity: for every `(spot, strike, T, r, sigma, q)` with
`spot > 0`, `strike > 0`, `T > 0`, `sigma > 0`, the call price minus the put
price returned by `option_price` equals `spot*e^(-qT) - strike*e^(-rT)`
(exactly, in the real-valued model, hence within any floating-point
tolerance). -/
theorem C6_put_call_parity (S K T r sigma q : ℝ)
    (_hS : 0 < S) (_hK : 0 < K) (_hT : 0 < T) (_hsigma : 0 < sigma)
    (c p' : ℝ)
    (hcall : option_price S K T r sigma q "c" = Except.ok c)
    (hput : option_price S K T r sigma q "p" = Except.ok p') :
    c - p' = S * Real.exp (-q * T) - K * Real.exp (-r * T) := by
  rw [option_price_call] at hcall
  rw [option_price_put] at hput
  injection hcall with hcall
  injection hput with hput
  rw [← hcall, ← hput]
  unfold callPriceSpec putPriceSpec
  rw [normCdf_neg, normCdf_neg]
  ring

theorem C6_witness :
    callPriceSpec 100 90 1 (1 / 20) (1 / 5) (1 / 100)
        - putPriceSpec 100 90 1 (1 / 20) (1 / 5) (1 / 100)
      = 100 * Real.exp (-(1 / 100) * 1) - 90 * Real.exp (-(1 / 20) * 1) :=
  C6_put_call_parity 100 90 1 (1 / 20) (1 / 5) (1 / 100)
    (by norm_num) (by norm_num) (by norm_num) (by norm_num) _ _
    (option_price_call 100 90 1 (1 / 20) (1 / 5) (1 / 100))
    (option_price_put 100 90 1 (1 / 20) (1 / 5) (1 / 100))

lemma callPriceSpec_le (S K T r sigma q : ℝ) (hS : 0 ≤ S) (hK : 0 ≤ K) :
    callPriceSpec S K T r sigma q ≤ S * Real.exp (-q * T) := by
  unfold callPriceSpec
  have h1 := normCdf_le_one (d1_spec S K T r sigma q)
  have h1' := normCdf_nonneg (d1_spec S K T r sigma q)
  have h2 := normCdf_nonneg (d2_spec S K T r sigma q)
  have e1 : (0 : ℝ) < Real.exp (-q * T) := Real.exp_pos _
  have e2 : (0 : ℝ) < Real.exp (-r * T) := Real.exp_pos _
  nlinarith [mul_nonneg (mul_nonneg hK e2.le) h2,
    mul_nonneg (mul_nonneg hS e1.le) (sub_nonneg.mpr h1)]

/-- C3: for every non-degenerate input (`T > 0` and `market_price > 0`) on
which the target function has no sign change over `[1e-6, 200]`, or on which
the root-finder fails to find a root in the bracket, `implied_volatility`
returns the undefined result: the `ValueError`/`RuntimeError` is caught and
normalised to the same undefined sentinel — no exception escapes, no
fabricated number is returned, and no retry with a different bracket is
performed. -/
theorem C3_failure_returns_none (S K T r q mp : ℝ) (ot : String) (tol : ℝ)
    (mi : ℕ) (hT : 0 < T) (hmp : 0 < mp) (fa fb : ℝ)
    (hfa : target_fn S K T r q mp ot 1e-6 = Except.ok fa)
    (hfb : target_fn S K T r q mp ot 200 = Except.ok fb)
    (hfail : 0 < fa * fb ∨
      ¬ ∃ x ∈ Icc (1e-6 : ℝ) 200, target_fn S K T r q mp ot x = Except.ok 0) :
    implied_volatility S K T r q mp ot tol mi = none := by
  rw [implied_volatility_eq S K T r q mp ot tol mi hT hmp]
  rcases hfail with hsign | hroot
  · rw [brentq_no_sign_change _ _ _ _ _ _ _ hfa hfb hsign]
  · rcases brentq_no_root _ _ _ tol mi _ _ hfa hfb hroot with h | h <;> rw [h]

theorem C3_witness :
    implied_volatility 100 100 1 0 0 200 "c" 1e-6 100 = none := by
  have hfa : target_fn 100 100 1 0 0 200 "c" 1e-6
      = Except.ok (callPriceSpec 100 100 1 0 1e-6 0 - 200) := by
    unfold target_fn
    rw [option_price_call]
    rfl
  have hfb : target_fn 100 100 1 0 0 200 "c" 200
      = Except.ok (callPriceSpec 100 100 1 0 200 0 - 200) := by
    unfold target_fn
    rw [option_price_call]
    rfl
  have hexp : Real.exp (-0 * 1) = 1 := by norm_num
  have ha : callPriceSpec 100 100 1 0 1e-6 0 - 200 < 0 := by
    have h := callPriceSpec_le 100 100 1 0 1e-6 0 (by norm_num) (by norm_num)
    rw [hexp] at h
    linarith
  have hb : callPriceSpec 100 100 1 0 200 0 - 200 < 0 := by
    have h := callPriceSpec_le 100 100 1 0 200 0 (by norm_num) (by norm_num)
    rw [hexp] at h
    linarith
  exact C3_failure_returns_none 100 100 1 0 0 200 "c" 1e-6 100
    (by norm_num) (by norm_num) _ _ hfa hfb
    (Or.inl (mul_pos_of_neg_of_neg ha hb))

lemma d1_spec_eq (S K T r q : ℝ) (hT : 0 < T) (sigma : ℝ)
    (hsigma : sigma ≠ 0) :
    d1_spec S K T r sigma q
      = (Real.log (S / K) + (r - q) * T) / (sigma * Real.sqrt T)
        + sigma * Real.sqrt T / 2 := by
  unfold d1_spec
  have hc : Real.sqrt T ≠ 0 := (Real.sqrt_pos.mpr hT).ne'
  have hTs : Real.sqrt T * Real.sqrt T = T := Real.mul_self_sqrt hT.le
  field_simp
  linear_combination (-sigma ^ 3 * Real.sqrt T) * hTs

lemma d2_spec_eq (S K T r q : ℝ) (hT : 0 < T) (sigma : ℝ)
    (hsigma : sigma ≠ 0) :
    d2_spec S K T r sigma q
      = (Real.log (S / K) + (r - q) * T) / (sigma * Real.sqrt T)
        - sigma * Real.sqrt T / 2 := by
  unfold d2_spec
  rw [d1_spec_eq S K T r q hT sigma hsigma]
  ring

lemma d_sq_diff (S K T r q : ℝ) (hT : 0 < T) (sigma : ℝ)
    (hsigma : 0 < sigma) :
    d1_spec S K T r sigma q ^ 2 - d2_spec S K T r sigma q ^ 2
      = 2 * (Real.log (S / K) + (r - q) * T) := by
  have hs : sigma * Real.sqrt T ≠ 0 :=
    (mul_pos hsigma (Real.sqrt_pos.mpr hT)).ne'
  rw [d1_spec_eq S K T r q hT sigma hsigma.ne',
    d2_spec_eq S K T r q hT sigma hsigma.ne']
  field_simp
  ring

lemma vega_identity (S K T r q : ℝ) (hS : 0 < S) (hK : 0 < K) (hT : 0 < T)
    (sigma : ℝ) (hsigma : 0 < sigma) :
    K * Real.exp (-r * T) * stdNormalPDF (d2_spec S K T r sigma q)
      = S * Real.exp (-q * T) * stdNormalPDF (d1_spec S K T r sigma q) := by
  have hSK : Real.log (S / K) = Real.log S - Real.log K :=
    Real.log_div hS.ne' hK.ne'
  have hsq := d_sq_diff S K T r q hT sigma hsigma
  rw [hSK] at hsq
  have key : Real.log K + -r * T + -(d2_spec S K T r sigma q ^ 2) / 2
      = Real.log S + -q * T + -(d1_spec S K T r sigma q ^ 2) / 2 := by
    linarith
  calc K * Real.exp (-r * T) * stdNormalPDF (d2_spec S K T r sigma q)
      = Real.exp (Real.log K + -r * T + -(d2_spec S K T r sigma q ^ 2) / 2)
        / Real.sqrt (2 * Real.pi) := by
        unfold stdNormalPDF
        rw [Real.exp_add, Real.exp_add, Real.exp_log hK]
        ring
    _ = Real.exp (Real.log S + -q * T + -(d1_spec S K T r sigma q ^ 2) / 2)
        / Real.sqrt (2 * Real.pi) := by rw [key]
    _ = S * Real.exp (-q * T) * stdNormalPDF (d1_spec S K T r sigma q) := by
        unfold stdNormalPDF
        rw [Real.exp_add, Real.exp_add, Real.exp_log hS]
        ring

lemma d1_hasDerivAt (S K T r q : ℝ) (hT : 0 < T) (sigma : ℝ)
    (hsigma : 0 < sigma) :
    HasDerivAt (fun x => d1_spec S K T r x q)
      ((Real.log (S / K) + (r - q) * T) / Real.sqrt T * (-(sigma ^ 2)⁻¹)
        + Real.sqrt T / 2) sigma := by
  set A := Real.log (S / K) + (r - q) * T with hA
  set c := Real.sqrt T with hc
  have hc0 : (0 : ℝ) < c := Real.sqrt_pos.mpr hT
  have h1 : HasDerivAt (fun x : ℝ => A / (x * c)) (A / c * (-(sigma ^ 2)⁻¹))
      sigma := by
    have heq : (fun x : ℝ => A / (x * c)) = fun x : ℝ => A / c * x⁻¹ := by
      funext x
      rw [div_eq_mul_inv, div_eq_mul_inv, mul_inv]
      ring
    rw [heq]
    exact (hasDerivAt_inv hsigma.ne').const_mul (A / c)
  have h2 : HasDerivAt (fun x : ℝ => x * c / 2) (c / 2) sigma := by
    simpa using ((hasDerivAt_id sigma).mul_const c).div_const 2
  have hg : HasDerivAt (fun x : ℝ => A / (x * c) + x * c / 2)
      (A / c * (-(sigma ^ 2)⁻¹) + c / 2) sigma := h1.add h2
  refine hg.congr_of_eventuallyEq ?_
  filter_upwards [eventually_ne_nhds hsigma.ne'] with x hx
  exact d1_spec_eq S K T r q hT x hx

lemma d2_hasDerivAt (S K T r q : ℝ) (hT : 0 < T) (sigma : ℝ)
    (hsigma : 0 < sigma) :
    HasDerivAt (fun x => d2_spec S K T r x q)
      ((Real.log (S / K) + (r - q) * T) / Real.sqrt T * (-(sigma ^ 2)⁻¹)
        + Real.sqrt T / 2 - Real.sqrt T) sigma := by
  have h1 := d1_hasDerivAt S K T r q hT sigma hsigma
  have h2 : HasDerivAt (fun x : ℝ => x * Real.sqrt T) (Real.sqrt T) sigma := by
    simpa using (hasDerivAt_id sigma).mul_const (Real.sqrt T)
  have := h1.sub h2
  refine this.congr_of_eventuallyEq ?_
  filter_upwards with x
  unfold d2_spec
  rfl

lemma callPrice_hasDerivAt (S K T r q : ℝ) (hS : 0 < S) (hK : 0 < K)
    (hT : 0 < T) (sigma : ℝ) (hsigma : 0 < sigma) :
    HasDerivAt (fun x => callPriceSpec S K T r x q)
      (S * Real.exp (-q * T) * stdNormalPDF (d1_spec S K T r sigma q)
        * Real.sqrt T) sigma := by
  set D1 := (Real.log (S / K) + (r - q) * T) / Real.sqrt T * (-(sigma ^ 2)⁻¹)
    + Real.sqrt T / 2 with hD1
  have hd1 := d1_hasDerivAt S K T r q hT sigma hsigma
  have hd2 := d2_hasDerivAt S K T r q hT sigma hsigma
  have hc1 : HasDerivAt (fun x => normCdf (d1_spec S K T r x q))
      (stdNormalPDF (d1_spec S K T r sigma q) * D1) sigma :=
    (normCdf_hasDerivAt (d1_spec S K T r sigma q)).comp sigma hd1
  have hc2 : HasDerivAt (fun x => normCdf (d2_spec S K T r x q))
      (stdNormalPDF (d2_spec S K T r sigma q) * (D1 - Real.sqrt T)) sigma :=
    (normCdf_hasDerivAt (d2_spec S K T r sigma q)).comp sigma hd2
  have hsum : HasDerivAt (fun x => callPriceSpec S K T r x q)
      (S * Real.exp (-q * T)
        * (stdNormalPDF (d1_spec S K T r sigma q) * D1)
       - K * Real.exp (-r * T)
        * (stdNormalPDF (d2_spec S K T r sigma q) * (D1 - Real.sqrt T))) sigma := by
    have := (hc1.const_mul (S * Real.exp (-q * T))).sub
      (hc2.const_mul (K * Real.exp (-r * T)))
    refine this.congr_of_eventuallyEq ?_
    filter_upwards with x
    unfold callPriceSpec
    ring
  have hid := vega_identity S K T r q hS hK hT sigma hsigma
  have : S * Real.exp (-q * T)
        * (stdNormalPDF (d1_spec S K T r sigma q) * D1)
       - K * Real.exp (-r * T)
        * (stdNormalPDF (d2_spec S K T r sigma q) * (D1 - Real.sqrt T))
      = S * Real.exp (-q * T) * stdNormalPDF (d1_spec S K T r sigma q)
        * Real.sqrt T := by
    have expand : K * Real.exp (-r * T)
        * (stdNormalPDF (d2_spec S K T r sigma q) * (D1 - Real.sqrt T))
        = K * Real.exp (-r * T) * stdNormalPDF (d2_spec S K T r sigma q)
          * (D1 - Real.sqrt T) := by ring
    rw [expand, hid]
    ring
  rw [← this]
  exact hsum

lemma callPriceSpec_strictMonoOn (S K T r q : ℝ) (hS : 0 < S) (hK : 0 < K)
    (hT : 0 < T) :
    StrictMonoOn (fun sigma => callPriceSpec S K T r sigma q) (Ioi 0) := by
  apply strictMonoOn_of_deriv_pos (convex_Ioi 0)
  · exact fun x hx =>
      (callPrice_hasDerivAt S K T r q hS hK hT x hx).continuousAt.continuousWithinAt
  · intro x hx
    rw [interior_Ioi] at hx
    rw [(callPrice_hasDerivAt S K T r q hS hK hT x hx).deriv]
    have h1 : (0 : ℝ) < S * Real.exp (-q * T) := mul_pos hS (Real.exp_pos _)
    have h2 := stdNormalPDF_pos (d1_spec S K T r x q)
    have h3 : (0 : ℝ) < Real.sqrt T := Real.sqrt_pos.mpr hT
    positivity

/-- C7: monotonicity: for every fixed `spot > 0`, `strike > 0`, `T > 0`, `r`,
`q`, the call price returned by `option_price` is strictly increasing as a
function of `sigma > 0`. -/
theorem C7_call_price_strictly_increasing (S K T r q sigma1 sigma2 : ℝ)
    (hS : 0 < S) (hK : 0 < K) (hT : 0 < T) (h1 : 0 < sigma1)
    (h12 : sigma1 < sigma2) (p1 p2 : ℝ)
    (hp1 : option_price S K T r sigma1 q "c" = Except.ok p1)
    (hp2 : option_price S K T r sigma2 q "c" = Except.ok p2) :
    p1 < p2 := by
  rw [option_price_call] at hp1 hp2
  injection hp1 with hp1
  injection hp2 with hp2
  rw [← hp1, ← hp2]
  exact callPriceSpec_strictMonoOn S K T r q hS hK hT h1
    (lt_trans h1 h12) h12

theorem C7_witness :
    callPriceSpec 100 90 1 (1 / 20) (1 / 10) (1 / 100)
      < callPriceSpec 100 90 1 (1 / 20) (1 / 2) (1 / 100) :=
  C7_call_price_strictly_increasing 100 90 1 (1 / 20) (1 / 100) (1 / 10)
    (1 / 2) (by norm_num) (by norm_num) (by norm_num) (by norm_num)
    (by norm_num) _ _
    (option_price_call 100 90 1 (1 / 20) (1 / 10) (1 / 100))
    (option_price_call 100 90 1 (1 / 20) (1 / 2) (1 / 100))

/-- Auxiliary function for the positivity of the call price: the call price
with `d2` freed as the variable `y` (so that `d1 = y + s` with
`s = sigma * sqrt T`). -/
noncomputable def callAux (S K T r q s y : ℝ) : ℝ :=
  S * Real.exp (-q * T) * normCdf (y + s) - K * Real.exp (-r * T) * normCdf y

lemma callAux_hasDerivAt (S K T r q s y : ℝ) :
    HasDerivAt (fun z => callAux S K T r q s z)
      (S * Real.exp (-q * T) * stdNormalPDF (y + s)
        - K * Real.exp (-r * T) * stdNormalPDF y) y := by
  have h1 : HasDerivAt (fun z : ℝ => normCdf (z + s)) (stdNormalPDF (y + s)) y := by
    have := (normCdf_hasDerivAt (y + s)).comp y ((hasDerivAt_id y).add_const s)
    simpa using this
  have h2 := normCdf_hasDerivAt y
  have := (h1.const_mul (S * Real.exp (-q * T))).sub
    (h2.const_mul (K * Real.exp (-r * T)))
  refine this.congr_of_eventuallyEq ?_
  filter_upwards with z
  unfold callAux
  ring

lemma callAux_deriv_pos (S K T r q s : ℝ) (hS : 0 < S) (hK : 0 < K)
    (hs : 0 < s) (y : ℝ)
    (hy : y < (Real.log (S / K) + (r - q) * T - s ^ 2 / 2) / s) :
    0 < S * Real.exp (-q * T) * stdNormalPDF (y + s)
        - K * Real.exp (-r * T) * stdNormalPDF y := by
  have hys : y * s < Real.log (S / K) + (r - q) * T - s ^ 2 / 2 :=
    (lt_div_iff₀ hs).mp hy
  rw [Real.log_div hS.ne' hK.ne'] at hys
  have hlt : Real.log K + -r * T + -(y ^ 2) / 2
      < Real.log S + -q * T + -((y + s) ^ 2) / 2 := by nlinarith
  have e1 : K * Real.exp (-r * T) * stdNormalPDF y
      = Real.exp (Real.log K + -r * T + -(y ^ 2) / 2)
        / Real.sqrt (2 * Real.pi) := by
    unfold stdNormalPDF
    rw [Real.exp_add, Real.exp_add, Real.exp_log hK]
    ring
  have e2 : S * Real.exp (-q * T) * stdNormalPDF (y + s)
      = Real.exp (Real.log S + -q * T + -((y + s) ^ 2) / 2)
        / Real.sqrt (2 * Real.pi) := by
    unfold stdNormalPDF
    rw [Real.exp_add, Real.exp_add, Real.exp_log hS]
    ring
  have hsq : (0 : ℝ) < Real.sqrt (2 * Real.pi) :=
    Real.sqrt_pos.mpr (by positivity)
  refine sub_pos.mpr ?_
  rw [e1, e2]
  exact (div_lt_div_iff_of_pos_right hsq).mpr (Real.exp_lt_exp.mpr hlt)

lemma callAux_strictMonoOn (S K T r q s : ℝ) (hS : 0 < S) (hK : 0 < K)
    (hs : 0 < s) :
    StrictMonoOn (callAux S K T r q s)
      (Iic ((Real.log (S / K) + (r - q) * T - s ^ 2 / 2) / s)) := by
  apply strictMonoOn_of_deriv_pos (convex_Iic _)
  · exact fun x _ =>
      (callAux_hasDerivAt S K T r q s x).continuousAt.continuousWithinAt
  · intro y hy
    rw [interior_Iic] at hy
    rw [(callAux_hasDerivAt S K T r q s y).deriv]
    exact callAux_deriv_pos S K T r q s hS hK hs y hy

lemma callAux_tendsto_atBot (S K T r q s : ℝ) :
    Tendsto (callAux S K T r q s) atBot (𝓝 0) := by
  have h1 : Tendsto (fun y : ℝ => normCdf (y + s)) atBot (𝓝 0) :=
    tendsto_normCdf_atBot.comp (tendsto_atBot_add_const_right _ s tendsto_id)
  have h2 := tendsto_normCdf_atBot
  have h3 := (h1.const_mul (S * Real.exp (-q * T))).sub
    (h2.const_mul (K * Real.exp (-r * T)))
  have h4 : S * Real.exp (-q * T) * 0 - K * Real.exp (-r * T) * 0 = (0 : ℝ) := by
    ring
  rw [← h4]
  exact h3

lemma callAux_pos (S K T r q s : ℝ) (hS : 0 < S) (hK : 0 < K) (hs : 0 < s)
    (y : ℝ) (hy : y ≤ (Real.log (S / K) + (r - q) * T - s ^ 2 / 2) / s) :
    0 < callAux S K T r q s y := by
  have hmono := callAux_strictMonoOn S K T r q s hS hK hs
  have hmem : y ∈ Iic ((Real.log (S / K) + (r - q) * T - s ^ 2 / 2) / s) := hy
  have hmem' : y - 1 ∈ Iic ((Real.log (S / K) + (r - q) * T - s ^ 2 / 2) / s) := by
    simp only [mem_Iic] at hmem ⊢
    linarith
  have hle : 0 ≤ callAux S K T r q s (y - 1) := by
    refine le_of_tendsto (callAux_tendsto_atBot S K T r q s) ?_
    filter_upwards [eventually_lt_atBot (y - 1)] with z hz
    have hzmem : z ∈ Iic ((Real.log (S / K) + (r - q) * T - s ^ 2 / 2) / s) := by
      simp only [mem_Iic] at hmem' ⊢
      linarith
    exact (hmono hzmem hmem' hz).le
  have hlt : callAux S K T r q s (y - 1) < callAux S K T r q s y :=
    hmono hmem' hmem (by linarith)
  linarith

lemma callPriceSpec_pos (S K T r q sigma : ℝ) (hS : 0 < S) (hK : 0 < K)
    (hT : 0 < T) (hsigma : 0 < sigma) :
    0 < callPriceSpec S K T r sigma q := by
  have hs : 0 < sigma * Real.sqrt T := mul_pos hsigma (Real.sqrt_pos.mpr hT)
  have harg : d2_spec S K T r sigma q + sigma * Real.sqrt T
      = d1_spec S K T r sigma q := by
    unfold d2_spec
    ring
  have heq : callPriceSpec S K T r sigma q
      = callAux S K T r q (sigma * Real.sqrt T) (d2_spec S K T r sigma q) := by
    unfold callPriceSpec callAux
    rw [harg]
  rw [heq]
  refine callAux_pos S K T r q _ hS hK hs _ ?_
  have hd2 : d2_spec S K T r sigma q
      = (Real.log (S / K) + (r - q) * T - (sigma * Real.sqrt T) ^ 2 / 2)
        / (sigma * Real.sqrt T) := by
    rw [d2_spec_eq S K T r q hT sigma hsigma.ne']
    field_simp
    ring
  rw [hd2]

lemma target_fn_call (S K T r q mp x : ℝ) :
    target_fn S K T r q mp "c" x
      = Except.ok (callPriceSpec S K T r x q - mp) := by
  unfold target_fn
  rw [option_price_call]
  rfl

open Classical in
lemma implied_volatility_roundtrip (S K T r q sigma tol : ℝ) (mi : ℕ)
    (hS : 0 < S) (hK : 0 < K) (hT : 0 < T)
    (hlo : 1e-6 < sigma) (hhi : sigma < 200) :
    implied_volatility S K T r q (callPriceSpec S K T r sigma q) "c" tol mi
      = some sigma := by
  have hsigma : (0 : ℝ) < sigma := lt_trans (by norm_num) hlo
  have hmp : 0 < callPriceSpec S K T r sigma q :=
    callPriceSpec_pos S K T r q sigma hS hK hT hsigma
  set mp := callPriceSpec S K T r sigma q with hmp_def
  have hmonoP := callPriceSpec_strictMonoOn S K T r q hS hK hT
  have hlt_a : callPriceSpec S K T r 1e-6 q - mp < 0 :=
    sub_neg.mpr (hmonoP (mem_Ioi.mpr (by norm_num)) (mem_Ioi.mpr hsigma) hlo)
  have hlt_b : 0 < callPriceSpec S K T r 200 q - mp :=
    sub_pos.mpr (hmonoP (mem_Ioi.mpr hsigma) (mem_Ioi.mpr (by norm_num)) hhi)
  have hsign : ¬ 0 < (callPriceSpec S K T r 1e-6 q - mp)
      * (callPriceSpec S K T r 200 q - mp) := by
    nlinarith
  have hroot : ∃ x ∈ Icc (1e-6 : ℝ) 200,
      target_fn S K T r q mp "c" x = Except.ok 0 := by
    refine ⟨sigma, ⟨hlo.le, hhi.le⟩, ?_⟩
    rw [target_fn_call]
    simp
  have hred : brentq (target_fn S K T r q mp "c") 1e-6 200 tol mi
      = if 0 < (callPriceSpec S K T r 1e-6 q - mp)
            * (callPriceSpec S K T r 200 q - mp)
        then Except.error "ValueError: f(a) and f(b) must have different signs"
        else if h : ∃ x ∈ Icc (1e-6 : ℝ) 200,
            target_fn S K T r q mp "c" x = Except.ok 0
          then Except.ok h.choose
          else Except.error "RuntimeError: failed to converge" := by
    unfold brentq
    rw [target_fn_call, target_fn_call]
  have hok : ∃ y, brentq (target_fn S K T r q mp "c") 1e-6 200 tol mi
      = Except.ok y := by
    rw [hred, if_neg hsign, dif_pos hroot]
    exact ⟨_, rfl⟩
  obtain ⟨y, hy⟩ := hok
  obtain ⟨hymem, hyroot⟩ := brentq_ok _ _ _ _ _ _ hy
  rw [target_fn_call] at hyroot
  injection hyroot with h0
  have hy_eq : y = sigma := by
    refine hmonoP.injOn (mem_Ioi.mpr ?_) (mem_Ioi.mpr hsigma) ?_
    · exact lt_of_lt_of_le (by norm_num) hymem.1
    · have : callPriceSpec S K T r y q = mp := by linarith
      rw [this]
  rw [implied_volatility_eq S K T r q mp "c" tol mi hT hmp, hy, hy_eq]

/-- C9: for every non-degenerate input (`T > 0` and `market_price > 0`) on
which `implied_volatility` returns a volatility rather than the undefined
result, the returned sigma lies inside the search bracket `[1e-6, 200]`
(hence is non-negative) and is a root of
`target(sigma) = option_price(..., sigma, ...) - market_price` (exactly, in
the exact-arithmetic model, hence within the convergence tolerance). -/
theorem C9_result_is_root_in_bracket (S K T r q mp : ℝ) (ot : String)
    (tol : ℝ) (mi : ℕ) (hT : 0 < T) (hmp : 0 < mp) (x : ℝ)
    (hx : implied_volatility S K T r q mp ot tol mi = some x) :
    x ∈ Icc (1e-6 : ℝ) 200 ∧ target_fn S K T r q mp ot x = Except.ok 0 := by
  rw [implied_volatility_eq S K T r q mp ot tol mi hT hmp] at hx
  revert hx
  cases hb : brentq (target_fn S K T r q mp ot) 1e-6 200 tol mi with
  | ok y =>
    intro hx
    injection hx with hx
    exact hx ▸ brentq_ok _ _ _ _ _ _ hb
  | error e =>
    intro hx
    exact absurd hx (by simp)

theorem C9_witness :
    ((1 / 5 : ℝ) ∈ Icc (1e-6 : ℝ) 200 ∧
      target_fn 100 100 1 (1 / 20) 0 (callPriceSpec 100 100 1 (1 / 20) (1 / 5) 0)
        "c" (1 / 5) = Except.ok 0) :=
  C9_result_is_root_in_bracket 100 100 1 (1 / 20) 0
    (callPriceSpec 100 100 1 (1 / 20) (1 / 5) 0) "c" 1e-6 100
    (by norm_num)
    (callPriceSpec_pos 100 100 1 (1 / 20) 0 (1 / 5) (by norm_num) (by norm_num)
      (by norm_num) (by norm_num))
    (1 / 5)
    (implied_volatility_roundtrip 100 100 1 (1 / 20) 0 (1 / 5) 1e-6 100
      (by norm_num) (by norm_num) (by norm_num) (by norm_num) (by norm_num))

lemma normCdf_zero : normCdf 0 = 1 / 2 := by
  have h := normCdf_neg 0
  rw [neg_zero] at h
  linarith

lemma normCdf_eq_half_add (x : ℝ) :
    normCdf x = 1 / 2
      + (∫ t in (0 : ℝ)..x, Real.exp (-(t ^ 2) / 2))
        / Real.sqrt (2 * Real.pi) := by
  have h := normCdf_sub 0 x
  rw [normCdf_zero] at h
  have h2 : ∫ t in (0 : ℝ)..x, stdNormalPDF t
      = (∫ t in (0 : ℝ)..x, Real.exp (-(t ^ 2) / 2))
        / Real.sqrt (2 * Real.pi) := by
    rw [← intervalIntegral.integral_div]
    rfl
  linarith

lemma sqrt_two_pi_lb : (2.5066 : ℝ) < Real.sqrt (2 * Real.pi) := by
  refine (Real.lt_sqrt (by norm_num)).mpr ?_
  nlinarith [Real.pi_gt_d6]

lemma sqrt_two_pi_ub : Real.sqrt (2 * Real.pi) < 2.50663 := by
  refine (Real.sqrt_lt' (by norm_num)).mpr ?_
  nlinarith [Real.pi_lt_d6]

lemma exp_neg_twentieth_bounds :
    (2922175 / 3072000 : ℝ) ≤ Real.exp (-(1 / 20)) ∧
      Real.exp (-(1 / 20)) ≤ (2922177 / 3072000 : ℝ) := by
  have habs : |(-(1 / 20) : ℝ)| ≤ 1 := by
    rw [abs_neg, abs_of_nonneg (by norm_num : (0 : ℝ) ≤ 1 / 20)]
    norm_num
  have h := Real.exp_bound habs (show 0 < 4 by norm_num)
  rw [Finset.sum_range_succ, Finset.sum_range_succ, Finset.sum_range_succ,
    Finset.sum_range_one, abs_le] at h
  have h20 : |(1 / 20 : ℝ)| = 1 / 20 := abs_of_pos (by norm_num)
  rw [show |(-(1 / 20) : ℝ)| = |(1 / 20 : ℝ)| from abs_neg _, h20] at h
  norm_num [Nat.factorial] at h
  constructor <;> linarith [h.1, h.2]

lemma exp_neg_sq_half_lb (t : ℝ) :
    1 - t ^ 2 / 2 ≤ Real.exp (-(t ^ 2) / 2) := by
  have h := Real.add_one_le_exp (-(t ^ 2) / 2)
  linarith

lemma exp_neg_sq_half_ub (t : ℝ) (ht : |t| ≤ 1) :
    Real.exp (-(t ^ 2) / 2) ≤ 1 - t ^ 2 / 2 + 3 / 16 * t ^ 4 := by
  have ht2 : t ^ 2 ≤ 1 := by
    rw [abs_le] at ht
    nlinarith [ht.1, ht.2]
  have habs : |(-(t ^ 2) / 2 : ℝ)| ≤ 1 := by
    rw [abs_div, abs_neg, abs_of_nonneg (sq_nonneg t),
      abs_of_nonneg (by norm_num : (0 : ℝ) ≤ 2)]
    linarith
  have habs2 : |(-(t ^ 2) / 2 : ℝ)| = t ^ 2 / 2 := by
    rw [abs_div, abs_neg, abs_of_nonneg (sq_nonneg t),
      abs_of_nonneg (by norm_num : (0 : ℝ) ≤ 2)]
  have h := Real.exp_bound habs (show 0 < 2 by norm_num)
  rw [Finset.sum_range_succ, Finset.sum_range_one, abs_le, habs2] at h
  norm_num [Nat.factorial] at h
  nlinarith [h.2]

lemma continuous_exp_neg_sq_half :
    Continuous fun t : ℝ => Real.exp (-(t ^ 2) / 2) :=
  Real.continuous_exp.comp ((continuous_pow 2).neg.div_const 2)

lemma integral_lower_poly (x : ℝ) :
    ∫ t in (0 : ℝ)..x, (1 - t ^ 2 / 2) = x - x ^ 3 / 6 := by
  have h1 : IntervalIntegrable (fun _ : ℝ => (1 : ℝ)) volume 0 x :=
    intervalIntegrable_const
  have h2 : IntervalIntegrable (fun t : ℝ => t ^ 2 / 2) volume 0 x :=
    ((continuous_pow 2).div_const 2).intervalIntegrable 0 x
  rw [intervalIntegral.integral_sub h1 h2, integral_one,
    intervalIntegral.integral_div, integral_pow]
  norm_num
  ring

lemma integral_upper_poly (x : ℝ) :
    ∫ t in (0 : ℝ)..x, (1 - t ^ 2 / 2 + 3 / 16 * t ^ 4)
      = x - x ^ 3 / 6 + 3 / 80 * x ^ 5 := by
  have h1 : IntervalIntegrable (fun t : ℝ => 1 - t ^ 2 / 2) volume 0 x :=
    (continuous_const.sub ((continuous_pow 2).div_const 2)).intervalIntegrable 0 x
  have h2 : IntervalIntegrable (fun t : ℝ => 3 / 16 * t ^ 4) volume 0 x :=
    (continuous_const.mul (continuous_pow 4)).intervalIntegrable 0 x
  rw [intervalIntegral.integral_add h1 h2, integral_lower_poly,
    intervalIntegral.integral_const_mul, integral_pow]
  norm_num
  ring

lemma gaussE_lb (x : ℝ) (h0 : 0 ≤ x) :
    x - x ^ 3 / 6 ≤ ∫ t in (0 : ℝ)..x, Real.exp (-(t ^ 2) / 2) := by
  rw [← integral_lower_poly x]
  refine intervalIntegral.integral_mono_on h0
    ((continuous_const.sub
      ((continuous_pow 2).div_const 2)).intervalIntegrable 0 x)
    (continuous_exp_neg_sq_half.intervalIntegrable 0 x) ?_
  intro t _
  exact exp_neg_sq_half_lb t

lemma gaussE_ub (x : ℝ) (h0 : 0 ≤ x) (h1 : x ≤ 1) :
    (∫ t in (0 : ℝ)..x, Real.exp (-(t ^ 2) / 2))
      ≤ x - x ^ 3 / 6 + 3 / 80 * x ^ 5 := by
  rw [← integral_upper_poly x]
  refine intervalIntegral.integral_mono_on h0
    (continuous_exp_neg_sq_half.intervalIntegrable 0 x)
    ((continuous_const.sub ((continuous_pow 2).div_const 2)).add
      (continuous_const.mul (continuous_pow 4)) |>.intervalIntegrable 0 x) ?_
  intro t ht
  refine exp_neg_sq_half_ub t ?_
  rw [abs_of_nonneg ht.1]
  exact le_trans ht.2 h1

lemma normCdf_num_lb (x : ℝ) (h0 : 0 ≤ x) (h1 : x ≤ 1) :
    1 / 2 + (x - x ^ 3 / 6) / 2.50663 ≤ normCdf x := by
  rw [normCdf_eq_half_add]
  have hE := gaussE_lb x h0
  have hx3 : x ^ 3 ≤ x := by
    calc x ^ 3 ≤ x ^ 1 := pow_le_pow_of_le_one h0 h1 (by norm_num)
      _ = x := pow_one x
  have hpoly : 0 ≤ x - x ^ 3 / 6 := by linarith
  have hEpos : 0 ≤ ∫ t in (0 : ℝ)..x, Real.exp (-(t ^ 2) / 2) :=
    le_trans hpoly hE
  have hdiv : (x - x ^ 3 / 6) / 2.50663
      ≤ (∫ t in (0 : ℝ)..x, Real.exp (-(t ^ 2) / 2))
        / Real.sqrt (2 * Real.pi) :=
    div_le_div₀ hEpos hE (Real.sqrt_pos.mpr (by positivity)) sqrt_two_pi_ub.le
  linarith

lemma normCdf_num_ub (x : ℝ) (h0 : 0 ≤ x) (h1 : x ≤ 1) :
    normCdf x ≤ 1 / 2 + (x - x ^ 3 / 6 + 3 / 80 * x ^ 5) / 2.5066 := by
  rw [normCdf_eq_half_add]
  have hE := gaussE_ub x h0 h1
  have hx3 : x ^ 3 ≤ x := by
    calc x ^ 3 ≤ x ^ 1 := pow_le_pow_of_le_one h0 h1 (by norm_num)
      _ = x := pow_one x
  have hpoly : 0 ≤ x - x ^ 3 / 6 + 3 / 80 * x ^ 5 := by
    have h5 : 0 ≤ x ^ 5 := pow_nonneg h0 5
    linarith
  have hdiv : (∫ t in (0 : ℝ)..x, Real.exp (-(t ^ 2) / 2))
        / Real.sqrt (2 * Real.pi)
      ≤ (x - x ^ 3 / 6 + 3 / 80 * x ^ 5) / 2.5066 :=
    div_le_div₀ hpoly hE (by norm_num) sqrt_two_pi_lb.le
  linarith

lemma scenario_d1 : d1_spec 100 100 1 (1 / 20) (1 / 5) 0 = 7 / 20 := by
  unfold d1_spec
  rw [show (100 : ℝ) / 100 = 1 by norm_num, Real.log_one, Real.sqrt_one]
  norm_num

lemma scenario_d2 : d2_spec 100 100 1 (1 / 20) (1 / 5) 0 = 3 / 20 := by
  unfold d2_spec
  rw [scenario_d1, Real.sqrt_one]
  norm_num

lemma scenario_price_bounds :
    |callPriceSpec 100 100 1 (1 / 20) (1 / 5) 0 - 10.4506| < 1 / 100 := by
  unfold callPriceSpec
  rw [scenario_d1, scenario_d2]
  have e0 : Real.exp (-0 * 1) = 1 := by norm_num
  have e1 : Real.exp (-(1 / 20) * 1) = Real.exp (-(1 / 20)) := by norm_num
  rw [e0, e1]
  have ha1 := normCdf_num_lb (7 / 20) (by norm_num) (by norm_num)
  have hb1 := normCdf_num_ub (7 / 20) (by norm_num) (by norm_num)
  have ha2 := normCdf_num_lb (3 / 20) (by norm_num) (by norm_num)
  have hb2 := normCdf_num_ub (3 / 20) (by norm_num) (by norm_num)
  obtain ⟨he_lo, he_hi⟩ := exp_neg_twentieth_bounds
  have ha2nn : (0 : ℝ) ≤ 1 / 2 + (3 / 20 - (3 / 20) ^ 3 / 6) / 2.50663 := by
    norm_num
  have hprod_hi : Real.exp (-(1 / 20)) * normCdf (3 / 20)
      ≤ (2922177 / 3072000)
        * (1 / 2 + (3 / 20 - (3 / 20) ^ 3 / 6 + 3 / 80 * (3 / 20) ^ 5)
          / 2.5066) :=
    mul_le_mul he_hi hb2 (normCdf_nonneg _) (by norm_num)
  have hprod_lo : (2922175 / 3072000)
        * (1 / 2 + (3 / 20 - (3 / 20) ^ 3 / 6) / 2.50663)
      ≤ Real.exp (-(1 / 20)) * normCdf (3 / 20) :=
    mul_le_mul he_lo ha2 ha2nn (Real.exp_pos _).le
  rw [abs_lt]
  constructor <;> nlinarith [ha1, hb1, hprod_lo, hprod_hi]

/-- C8: round-trip inversion: for `spot=100`, each strike in `{80, 100, 120}`,
`T=0.5`, `r=0.04`, `q=0.01`, and each true sigma in `{0.1, 0.2, 0.5}`,
computing `price = option_price(..., sigma, "c")` and then
`implied_volatility(..., price, "c")` returns a volatility within `1e-4` of
sigma (in the exact-arithmetic model the recovery is exact); and for the
scenario `spot=100, strike=100, T=1, r=0.05, sigma=0.2, q=0` the call price is
approximately `10.4506` (within `0.01`) and feeding it back recovers `0.2`. -/
theorem C8_round_trip_inversion (K sigma : ℝ)
    (hK : K = 80 ∨ K = 100 ∨ K = 120)
    (hsigma : sigma = 1 / 10 ∨ sigma = 1 / 5 ∨ sigma = 1 / 2) :
    (∃ v, implied_volatility 100 K (1 / 2) (1 / 25) (1 / 100)
        (callPriceSpec 100 K (1 / 2) (1 / 25) sigma (1 / 100)) "c" 1e-6 100
        = some v
      ∧ |v - sigma| ≤ 1e-4) ∧
    (|callPriceSpec 100 100 1 (1 / 20) (1 / 5) 0 - 10.4506| < 1 / 100) ∧
    (∃ v, implied_volatility 100 100 1 (1 / 20) 0
        (callPriceSpec 100 100 1 (1 / 20) (1 / 5) 0) "c" 1e-6 100 = some v
      ∧ |v - 1 / 5| ≤ 1e-4) := by
  have hK0 : (0 : ℝ) < K := by
    rcases hK with h | h | h <;> norm_num [h]
  have hlo : (1e-6 : ℝ) < sigma := by
    rcases hsigma with h | h | h <;> norm_num [h]
  have hhi : sigma < 200 := by
    rcases hsigma with h | h | h <;> norm_num [h]
  refine ⟨?_, scenario_price_bounds, ?_⟩
  · exact ⟨sigma,
      implied_volatility_roundtrip 100 K (1 / 2) (1 / 25) (1 / 100) sigma
        1e-6 100 (by norm_num) hK0 (by norm_num) hlo hhi,
      by norm_num⟩
  · exact ⟨1 / 5,
      implied_volatility_roundtrip 100 100 1 (1 / 20) 0 (1 / 5)
        1e-6 100 (by norm_num) (by norm_num) (by norm_num) (by norm_num)
        (by norm_num),
      by norm_num⟩

theorem C8_witness :
    (∃ v, implied_volatility 100 100 (1 / 2) (1 / 25) (1 / 100)
        (callPriceSpec 100 100 (1 / 2) (1 / 25) (1 / 5) (1 / 100)) "c" 1e-6 100
        = some v
      ∧ |v - 1 / 5| ≤ 1e-4) ∧
    (|callPriceSpec 100 100 1 (1 / 20) (1 / 5) 0 - 10.4506| < 1 / 100) ∧
    (∃ v, implied_volatility 100 100 1 (1 / 20) 0
        (callPriceSpec 100 100 1 (1 / 20) (1 / 5) 0) "c" 1e-6 100 = some v
      ∧ |v - 1 / 5| ≤ 1e-4) :=
  C8_round_trip_inversion 100 (1 / 5) (Or.inr (Or.inl rfl))
    (Or.inr (Or.inl rfl))

end BSM
